import Mathlib

/-!
Verification of the `querybuilder` package of the fli repository: a shallow
embedding in Lean 4 of its expression AST, field-type registry, versioned
schema, filter lexer/parser and query builder, together with theorems about
the behaviour of those definitions.

Every definition is translated from the Go source
(`internal/querybuilder/*.go` and the builder/options/verbs files).
Strings are modelled as Lean `String` / `List Char`; Go `int` is modelled
as `Int` (the source never overflows in the situations considered);
Go `(T, error)` results are modelled as `Except String T`, a `nil` error
being `.ok`; Go's nilable `Expr` interface value is modelled by the extra
constructor `Expr.GoNilExpr`.
-/

set_option maxRecDepth 20000

namespace QB

/-! ## Go standard-library string helpers used by the source -/

/-- Whitespace recognizer behind `strings.TrimSpace` (ASCII range; the
source is only ever applied to ASCII query text). -/
def isSpaceChar (c : Char) : Bool :=
  c = ' ' || c = '\t' || c = '\n' || c = '\r' || c = Char.ofNat 11 || c = Char.ofNat 12

/-- ASCII lower-casing of one character, as `strings.ToLower` acts on the
ASCII query text handled by the source. -/
def toLowerChar (c : Char) : Char :=
  if 'A' ≤ c ∧ c ≤ 'Z' then Char.ofNat (c.toNat + 32) else c

/-- Model of `strings.ToLower` on a character list. -/
def lowerL (l : List Char) : List Char := l.map toLowerChar

/-- Model of `strings.TrimSpace`. -/
def trimSpaceL (l : List Char) : List Char :=
  ((l.dropWhile isSpaceChar).reverse.dropWhile isSpaceChar).reverse

/-- Model of `strings.Trim` with a cutset: removes all leading and trailing
characters belonging to `cut`. -/
def trimCutset (cut : List Char) (l : List Char) : List Char :=
  ((l.dropWhile (cut.contains ·)).reverse.dropWhile (cut.contains ·)).reverse

/-- Model of `strings.Index`: index of the first occurrence of `pat` in `l`,
`none` when absent (`-1` in Go). -/
def strIndex : List Char → List Char → Option Nat
  | s, pat =>
    if pat.isPrefixOf s then some 0
    else
      match s with
      | [] => none
      | _ :: rest => (strIndex rest pat).map (· + 1)

/-- Index of the last occurrence of character `c` (model of
`strings.LastIndexByte` for ASCII input). -/
def lastIndexChar (c : Char) (l : List Char) : Option Nat :=
  match l with
  | [] => none
  | x :: rest =>
    match lastIndexChar c rest with
    | some i => some (i + 1)
    | none => if x = c then some 0 else none

/-- Model of `strings.Split` on a single separator character. -/
def splitChar (c : Char) : List Char → List (List Char)
  | [] => [[]]
  | x :: rest =>
    if x = c then [] :: splitChar c rest
    else
      match splitChar c rest with
      | [] => [[x]]
      | p :: ps => (x :: p) :: ps

def isDigitChar (c : Char) : Bool := '0' ≤ c ∧ c ≤ '9'

def isHexDigitChar (c : Char) : Bool :=
  isDigitChar c || ('a' ≤ c ∧ c ≤ 'f') || ('A' ≤ c ∧ c ≤ 'F')

/-- Numeric value of a decimal digit string (already checked to be digits). -/
def digitsToNat (l : List Char) : Nat :=
  l.foldl (fun acc c => acc * 10 + (c.toNat - '0'.toNat)) 0

/-- Model of `strconv.Atoi`: optional sign, then one or more decimal digits,
rejecting values outside the 64-bit `int` range. -/
def goAtoi (l : List Char) : Option Int :=
  match l with
  | [] => none
  | c :: rest =>
    let signed : Bool × List Char :=
      if c = '+' then (false, rest) else if c = '-' then (true, rest) else (false, l)
    let digits := signed.2
    if digits.isEmpty || !(digits.all isDigitChar) then none
    else
      let m := digitsToNat digits
      if signed.1 then
        if m ≤ 2 ^ 63 then some (-(m : Int)) else none
      else
        if m ≤ 2 ^ 63 - 1 then some (m : Int) else none

def goAtoiStr (s : String) : Option Int := goAtoi s.toList

/-- Mantissa recognizer for a decimal float: `digits`, `digits.digits`,
`digits.` or `.digits` with at least one digit overall. -/
def decMantissaOk (l : List Char) : Bool :=
  match splitChar '.' l with
  | [a] => !a.isEmpty && a.all isDigitChar
  | [a, b] =>
    (!a.isEmpty || !b.isEmpty) && a.all isDigitChar && b.all isDigitChar
  | _ => false

/-- Exponent recognizer: optional sign then one or more decimal digits. -/
def expDigitsOk (l : List Char) : Bool :=
  match l with
  | [] => false
  | c :: rest =>
    if c = '+' || c = '-' then !rest.isEmpty && rest.all isDigitChar
    else l.all isDigitChar

/-- Hex-float mantissa recognizer: hex digits with at most one dot and at
least one hex digit overall. -/
def hexMantissaOk (l : List Char) : Bool :=
  match splitChar '.' l with
  | [a] => !a.isEmpty && a.all isHexDigitChar
  | [a, b] =>
    (!a.isEmpty || !b.isEmpty) && a.all isHexDigitChar && b.all isHexDigitChar
  | _ => false

/-- Splits `l` at the first occurrence of `c`: `(before, some after)` when
present, `(l, none)` otherwise. -/
def splitFirst (c : Char) : List Char → List Char × Option (List Char)
  | [] => ([], none)
  | x :: rest =>
    if x = c then ([], some rest)
    else
      let r := splitFirst c rest
      (x :: r.1, r.2)

/-- Syntax recognizer for `strconv.ParseFloat` (64-bit): the special values
`inf`/`infinity`/`nan` (case-insensitive, signed infinities), decimal
mantissa with optional `e`-exponent, and hex mantissa with mandatory
`p`-exponent. Digit-separator underscores are not modelled; no property
below depends on them. -/
def parseFloatOk (l : List Char) : Bool :=
  let low := lowerL l
  if low = "inf".toList || low = "infinity".toList || low = "+inf".toList ||
     low = "-inf".toList || low = "+infinity".toList || low = "-infinity".toList ||
     low = "nan".toList then true
  else
    let body : List Char :=
      match l with
      | c :: rest => if c = '+' || c = '-' then rest else l
      | [] => []
    match body with
    | '0' :: x :: hexBody =>
      if x = 'x' || x = 'X' then
        match splitFirst 'p' (lowerL hexBody) with
        | (mant, some e) => hexMantissaOk mant && expDigitsOk e
        | (_, none) => false
      else
        match splitFirst 'e' (lowerL body) with
        | (mant, some e) => decMantissaOk mant && expDigitsOk e
        | (_, none) => decMantissaOk body
    | _ =>
      match splitFirst 'e' (lowerL body) with
      | (mant, some e) => decMantissaOk mant && expDigitsOk e
      | (_, none) => decMantissaOk body

def parseFloatOkStr (s : String) : Bool := parseFloatOk s.toList

/-! ## Model of `net/netip` address parsing used by the IP field parser -/

/-- Validity of one dotted-quad field of an IPv4 address per `netip`:
non-empty decimal digits, no redundant leading zero, value at most 255. -/
def ipv4FieldOk (f : List Char) : Bool :=
  !f.isEmpty && f.all isDigitChar &&
  (f.length = 1 || f.headD ' ' ≠ '0') &&
  digitsToNat f ≤ 255

/-- Model of `netip` IPv4 parsing: exactly four valid dotted-quad fields. -/
def ipv4Ok (l : List Char) : Bool :=
  match splitChar '.' l with
  | [a, b, c, d] => ipv4FieldOk a && ipv4FieldOk b && ipv4FieldOk c && ipv4FieldOk d
  | _ => false

/-- One step state of the `netip` IPv6 group scanner: bytes filled so far
and whether a `::` has been seen. -/
structure IPv6ScanState where
  filled : Nat
  seenEllipsis : Bool

/-- Length of the leading run of hex digits, capped by the 16-bit overflow
rule of `netip` (a group of more than 4 hex digits always overflows). -/
def hexRunLen (l : List Char) : Nat := (l.takeWhile isHexDigitChar).length

/-- Group scanner for `netip` IPv6 parsing, following the loop of
`parseIPv6`: consume a hex group, then either end, a trailing embedded
IPv4 address, or a colon (possibly a `::`), with fuel bounding the number
of loop iterations (each iteration consumes at least one character). -/
def ipv6Loop : Nat → List Char → IPv6ScanState → Bool
  | 0, _, _ => false
  | fuel + 1, s, st =>
    if st.filled ≥ 16 then s.isEmpty && (st.filled = 16 → !st.seenEllipsis)
    else
      let off := hexRunLen s
      if off = 0 then false
      else if 4 < off then false
      else
        let rest := s.drop off
        match rest with
        | [] =>
          -- end of string after a complete group
          let filled := st.filled + 2
          if filled < 16 then st.seenEllipsis
          else filled = 16 && !st.seenEllipsis
        | '.' :: _ =>
          -- trailing embedded IPv4 address consumes the current group too
          (st.seenEllipsis || st.filled = 12) && st.filled + 4 ≤ 16 && ipv4Ok s &&
          (let filled := st.filled + 4
           if filled < 16 then st.seenEllipsis else !st.seenEllipsis)
        | ':' :: ':' :: tail =>
          let filled := st.filled + 2
          if st.seenEllipsis then false
          else if tail.isEmpty then filled < 16
          else ipv6Loop fuel tail { filled := filled, seenEllipsis := true }
        | ':' :: tail =>
          if tail.isEmpty then false
          else ipv6Loop fuel tail { filled := st.filled + 2, seenEllipsis := st.seenEllipsis }
        | _ => false

/-- Model of `netip` IPv6 parsing (zone already stripped): an optional
leading `::` followed by the group scan. -/
def ipv6Ok (l : List Char) : Bool :=
  match l with
  | ':' :: ':' :: rest =>
    if rest.isEmpty then true
    else ipv6Loop (rest.length + 1) rest { filled := 0, seenEllipsis := true }
  | _ => ipv6Loop (l.length + 1) l { filled := 0, seenEllipsis := false }

/-- Model of `netip.ParseAddr`: the first of `.`, `:`, `%` decides between
IPv4, IPv6 (with an optional non-empty `%zone`) and an error. -/
def parseAddrOk (l : List Char) : Bool :=
  match l.find? (fun c => c = '.' || c = ':' || c = '%') with
  | some '.' => ipv4Ok l
  | some ':' =>
    match splitFirst '%' l with
    | (addr, some zone) => !zone.isEmpty && ipv6Ok addr
    | (addr, none) => ipv6Ok addr
  | _ => false

/-- Model of `netip.ParsePrefix`: split at the last `/`; the address part
must parse with no zone; the bit count is plain decimal with no redundant
leading zero, bounded by 32 (IPv4) or 128 (IPv6). -/
def parsePrefixOk (l : List Char) : Bool :=
  match lastIndexChar '/' l with
  | none => false
  | some i =>
    let addr := l.take i
    let bits := l.drop (i + 1)
    parseAddrOk addr && !addr.contains '%' &&
    !bits.isEmpty && bits.all isDigitChar &&
    (bits.length = 1 || bits.headD ' ' ≠ '0') &&
    digitsToNat bits ≤ (if addr.contains '.' then 32 else 128)

def parsePrefixOkStr (s : String) : Bool := parsePrefixOk s.toList

def parseAddrOkStr (s : String) : Bool := parseAddrOk s.toList

/-! ## Expression AST (`expressions.go`) -/

/-- Typed comparison values: the Go source stores `any` and renders
integers and floats unquoted, everything else single-quoted.
`VFloat` keeps the source text of the float; no property below renders a
float value. -/
inductive Value where
  | VInt (n : Int)
  | VFloat (raw : String)
  | VStr (s : String)
deriving DecidableEq, Repr

/-- Expression tree of `expressions.go`. `GoNilExpr` stands for a Go `nil`
value of the `Expr` interface (the parser returns it for empty input). -/
inductive Expr where
  | Eq (Field : String) (Value : Value)
  | Neq (Field : String) (Value : Value)
  | Gt (Field : String) (Value : Value)
  | Lt (Field : String) (Value : Value)
  | Gte (Field : String) (Value : Value)
  | Lte (Field : String) (Value : Value)
  | Like (Field : String) (Value : String)
  | NotLike (Field : String) (Value : String)
  | IsIpv4InSubnet (Field : String) (Value : String)
  | And (es : List Expr)
  | Or (es : List Expr)
  | NotExpr (e : Expr)
  | GoNilExpr

/-- Model of `strings.ReplaceAll(x, "'", "\\'")` used by `quote`. -/
def escapeSingleQuotes (s : String) : String :=
  String.mk (s.toList.flatMap (fun c => if c = '\'' then ['\\', '\''] else [c]))

/-- Model of `quote`: integers and floats render unquoted, strings render
single-quoted with internal single quotes backslash-escaped. The float
case renders the stored source text (`fmt.Sprint` shortest formatting is
not modelled; no property below renders a float). -/
def quote : Value → String
  | .VInt n => toString n
  | .VFloat raw => raw
  | .VStr s => "'" ++ escapeSingleQuotes s ++ "'"

/-- Model of `isComputedField`: the field contains an operator character,
a space or a parenthesis. -/
def isComputedField (field : String) : Bool :=
  field.toList.contains ' ' || field.toList.contains '-' ||
  field.toList.contains '/' || field.toList.contains '*' ||
  field.toList.contains '+' || field.toList.contains '(' ||
  field.toList.contains ')'

/-- Model of `formatField`: computed expressions are parenthesized. -/
def formatField (field : String) : String :=
  if isComputedField field then "(" ++ field ++ ")" else field

mutual

/-- Renderer of the expression AST, the per-type `String()` methods of
`expressions.go` fused into one match. Rendering a Go `nil` expression
would dereference a nil interface (a panic); it is modelled as the empty
string and never reached by the properties below. -/
def Expr.render : Expr → String
  | .Eq f v => formatField f ++ " = " ++ quote v
  | .Neq f v => formatField f ++ " != " ++ quote v
  | .Gt f v => formatField f ++ " > " ++ quote v
  | .Lt f v => formatField f ++ " < " ++ quote v
  | .Gte f v => formatField f ++ " >= " ++ quote v
  | .Lte f v => formatField f ++ " <= " ++ quote v
  | .Like f v => f ++ " like " ++ quote (.VStr v)
  | .NotLike f v => f ++ " not like " ++ quote (.VStr v)
  | .IsIpv4InSubnet f v => "isIpv4InSubnet(" ++ f ++ ", '" ++ v ++ "')"
  | .And es =>
    if es.isEmpty then ""
    else String.intercalate " and " (Expr.renderList es)
  | .Or es =>
    if es.isEmpty then ""
    else if es.length = 1 then "(" ++ (Expr.renderList es).headD "" ++ ")"
    else "(" ++ String.intercalate " or " (Expr.renderList es) ++ ")"
  | .NotExpr e => "not " ++ Expr.render e
  | .GoNilExpr => ""

/-- Renders each child in order (the `parts` loops of `And.String` and
`Or.String`). -/
def Expr.renderList : List Expr → List String
  | [] => []
  | e :: rest => Expr.render e :: Expr.renderList rest

end

/-! ## Verbs (`verbs.go`) and aggregation fields -/

/-- Query verb enumeration of `verbs.go`. -/
inductive Verb where
  | raw
  | count
  | sum
  | avg
  | min
  | max
deriving DecidableEq, Repr

/-- Model of the `verbToStat` map; `VerbRaw` is absent from the Go map, so
looking it up yields the empty string. -/
def verbToStat : Verb → String
  | .raw => ""
  | .count => "count"
  | .sum => "sum"
  | .avg => "avg"
  | .min => "min"
  | .max => "max"

/-- Stringer-generated `Verb.String()` names, used in error messages. -/
def verbName : Verb → String
  | .raw => "VerbRaw"
  | .count => "VerbCount"
  | .sum => "VerbSum"
  | .avg => "VerbAvg"
  | .min => "VerbMin"
  | .max => "VerbMax"

/-- `AggregationField` of the builder: a field together with its verb. -/
structure AggregationField where
  Field : String
  Verb : Verb
deriving DecidableEq, Repr

/-- Model of `AggregationField.getAlias`: the special `flows` alias for
`count(*)`, otherwise `<field>_<stat-keyword>`. -/
def AggregationField.getAlias (af : AggregationField) : String :=
  let statFn := verbToStat af.Verb
  if af.Field = "*" ∧ af.Verb = .count then "flows"
  else af.Field ++ "_" ++ statFn

/-! ## Schema (`schema.go`, `vpc_flow_logs_schema.go`) -/

/-- Capability interface `Schema`, modelled as a structure of functions;
errors are `Except.error` carrying the message text. -/
structure Schema where
  GetParsePattern : Int → Except String String
  ValidateField : String → Int → Except String Unit
  ValidateVersion : Int → Except String Unit
  GetDefaultVersion : Int
  IsNumeric : String → Bool
  GetComputedFieldExpression : String → Int → String

def ParsePatternV2 : String :=
  "parse @message \"* * * * * * * * * * * * * *\" as version, account_id, interface_id, srcaddr, dstaddr, srcport, dstport, protocol, packets, bytes, start, end, action, log_status"

def ParsePatternV3 : String :=
  "parse @message \"* * * * * * * * * * * * * * * * * * * * * * * * * * * * * * *\" as version, account_id, interface_id, srcaddr, dstaddr, srcport, dstport, protocol, packets, bytes, start, end, action, log_status, vpc_id, subnet_id, instance_id, tcp_flags, type, pkt_srcaddr, pkt_dstaddr, region, az_id, sublocation_type, sublocation_id, pkt_src_aws_service, pkt_dst_aws_service, flow_direction, traffic_path"

def ParsePatternV5 : String := ParsePatternV3

def v2Fields : List String :=
  ["version", "account_id", "interface_id", "srcaddr", "dstaddr",
   "srcport", "dstport", "protocol", "packets", "bytes",
   "start", "end", "action", "log_status"]

def v3Fields : List String :=
  v2Fields ++
  ["vpc_id", "subnet_id", "instance_id", "tcp_flags", "type", "pkt_srcaddr",
   "pkt_dstaddr", "region", "az_id", "sublocation_type", "sublocation_id",
   "pkt_src_aws_service", "pkt_dst_aws_service", "flow_direction", "traffic_path"]

/-- Model of the `versionFields` map: versions 2, 3 and 5 are present. -/
def versionFields (version : Int) : Option (List String) :=
  if version = 2 then some v2Fields
  else if version = 3 then some v3Fields
  else if version = 5 then some v3Fields
  else none

/-- Model of `VPCFlowLogsSchema.ValidateField`: unknown versions fail first;
then the computed field `duration` and the wildcard `*` are always
accepted; otherwise the field must appear in the version's field list. -/
def vpcValidateField (field : String) (version : Int) : Except String Unit :=
  match versionFields version with
  | none => .error ("invalid flow log version: " ++ toString version)
  | some validFields =>
    if field = "duration" ∨ field = "*" then .ok ()
    else if validFields.contains field then .ok ()
    else .error ("invalid field '" ++ field ++ "' for version " ++ toString version)

/-- Model of `VPCFlowLogsSchema.GetParsePattern`. -/
def vpcGetParsePattern (version : Int) : Except String String :=
  if version = 2 then .ok ParsePatternV2
  else if version = 3 then .ok ParsePatternV3
  else if version = 5 then .ok ParsePatternV5
  else .error ("unsupported VPC Flow Log version for parse pattern: " ++ toString version)

/-- Model of `VPCFlowLogsSchema.ValidateVersion`. -/
def vpcValidateVersion (version : Int) : Except String Unit :=
  match versionFields version with
  | none => .error ("invalid flow log version: " ++ toString version)
  | some _ => .ok ()

/-- Model of `VPCFlowLogsSchema.IsNumeric`. -/
def vpcIsNumeric (field : String) : Bool :=
  field = "srcport" || field = "dstport" || field = "protocol" ||
  field = "packets" || field = "bytes" || field = "start" ||
  field = "end" || field = "duration"

/-- Model of `VPCFlowLogsSchema.GetComputedFieldExpression`: `duration`
expands to `end - start`, every other field to the empty string. -/
def vpcGetComputedFieldExpression (field : String) (_version : Int) : String :=
  if field = "duration" then "end - start" else ""

/-- The concrete `VPCFlowLogsSchema` instance. -/
def vpcFlowLogsSchema : Schema where
  GetParsePattern := vpcGetParsePattern
  ValidateField := vpcValidateField
  ValidateVersion := vpcValidateVersion
  GetDefaultVersion := 2
  IsNumeric := vpcIsNumeric
  GetComputedFieldExpression := vpcGetComputedFieldExpression

/-! ## Operator parsing (`filter_lexer.go`) -/

def DefaultSchemaVersion : Int := 2

/-- Model of `OperatorParser.convertValue`: integer first, then float,
else the raw string. -/
def convertValue (value : String) : Value :=
  match goAtoiStr value with
  | some n => .VInt n
  | none => if parseFloatOkStr value then .VFloat value else .VStr value

/-- Model of `OperatorParser.ParseOperator`: dispatch on the operator
token, building the comparison node with the converted value (`like` /
`not like` keep the raw string). -/
def ParseOperator (field value op : String) : Except String Expr :=
  let cv := convertValue value
  if op = "=" then .ok (.Eq field cv)
  else if op = "!=" then .ok (.Neq field cv)
  else if op = ">" then .ok (.Gt field cv)
  else if op = "<" then .ok (.Lt field cv)
  else if op = ">=" then .ok (.Gte field cv)
  else if op = "<=" then .ok (.Lte field cv)
  else if op = "like" then .ok (.Like field value)
  else if op = "not like" then .ok (.NotLike field value)
  else .error ("unsupported operator: " ++ op)

/-- Model of the compiled regex `^\d{1,3}(\.\d{1,3}){0,3}$`: one to four
dot-separated runs of one to three decimal digits. -/
def ipPrefixPatternMatch (l : List Char) : Bool :=
  let parts := splitChar '.' l
  decide (1 ≤ parts.length ∧ parts.length ≤ 4) &&
  parts.all (fun p => decide (1 ≤ p.length ∧ p.length ≤ 3) && p.all isDigitChar)

/-- Model of `isValidIPPrefix`: at most four dot-separated parts, each a
non-empty integer between 0 and 255. -/
def ipPrefixValid (l : List Char) : Bool :=
  let parts := splitChar '.' l
  decide (parts.length ≤ 4) &&
  parts.all (fun p =>
    !p.isEmpty &&
    (match goAtoi p with
     | some n => decide (0 ≤ n ∧ n ≤ 255)
     | none => false))

/-- Model of `parseIPFieldExpr`: operator gate, then CIDR, full address,
and bare-prefix branches in source order. -/
def parseIPFieldExpr (field op value : String) : Except String Expr :=
  if ¬ (op = "=" ∨ op = "!=" ∨ op = "like" ∨ op = "not like") then
    .error ("unsupported operator for IP field: " ++ op)
  else if value.toList.contains '/' then
    if parsePrefixOkStr value then
      if op = "=" ∨ op = "like" then .ok (.IsIpv4InSubnet field value)
      else .ok (.NotExpr (.IsIpv4InSubnet field value))
    else .error "invalid CIDR block"
  else if parseAddrOkStr value then
    if op = "=" then .ok (.Eq field (.VStr value))
    else if op = "!=" then .ok (.Neq field (.VStr value))
    else if op = "like" then .ok (.Eq field (.VStr value))
    else .ok (.Neq field (.VStr value))
  else if ipPrefixPatternMatch value.toList && ipPrefixValid value.toList then
    if op = "=" ∨ op = "like" then .ok (.Like field value)
    else .ok (.NotLike field value)
  else .error ("invalid IP, CIDR, or prefix value for field " ++ field ++ ": " ++ value)

/-- Model of the port value validator registered for `srcport`/`dstport`:
an integer within `[0, 65535]`. -/
def portValueValidator (value : String) : Except String Unit :=
  match goAtoiStr value with
  | none => .error ("invalid port value: " ++ value)
  | some port =>
    if port < 0 ∨ port > 65535 then .error ("port out of range: " ++ toString port)
    else .ok ()

/-- Model of `parsePortFieldExpr`: validate the port, then delegate to the
unified operator parser (the Go source reaches the same call on both of
its operator branches). -/
def parsePortFieldExpr (field op value : String) : Except String Expr :=
  match goAtoiStr value with
  | none => .error ("invalid port value: " ++ value)
  | some port =>
    if port < 0 ∨ port > 65535 then .error ("port out of range: " ++ toString port)
    else ParseOperator field value op

/-- Model of `parseNumericFieldExpr`: the value must parse as an integer or
a float; both branches delegate to the unified operator parser. -/
def parseNumericFieldExpr (field op value : String) : Except String Expr :=
  if (goAtoiStr value).isSome then ParseOperator field value op
  else if parseFloatOkStr value then ParseOperator field value op
  else .error ("invalid numeric value for field " ++ field ++ ": " ++ value)

/-- Model of the protocol acronym map. -/
def protocolAcronym (s : String) : Option String :=
  if s = "tcp" then some "6"
  else if s = "udp" then some "17"
  else if s = "icmp" then some "1"
  else if s = "icmpv6" then some "58"
  else if s = "esp" then some "50"
  else if s = "ah" then some "51"
  else none

/-- Model of `parseProtocolFieldExpr`: numeric values pass through
`strconv.Itoa`, known acronyms are replaced by their code, anything else
is kept as a literal string. -/
def parseProtocolFieldExpr (field op value : String) : Except String Expr :=
  match goAtoiStr value with
  | some num => ParseOperator field (toString num) op
  | none =>
    match protocolAcronym (String.mk (lowerL value.toList)) with
    | some protocolNum => ParseOperator field protocolNum op
    | none => ParseOperator field value op

/-- Registry entry `FieldType` (the `SupportedOps` list is carried but,
as in the source's parse path, never consulted: each parser enforces its
own operators). -/
structure FieldType where
  Name : String
  SupportedOps : List String
  ValueValidator : Option (String → Except String Unit)
  Parser : String → String → String → Except String Expr

def ipFieldNames : List String := ["srcaddr", "dstaddr", "pkt_srcaddr", "pkt_dstaddr"]

def portFieldNames : List String := ["srcport", "dstport"]

def numericFieldNames : List String := ["packets", "bytes", "start", "end", "duration"]

def ipFieldType : FieldType :=
  { Name := "ip", SupportedOps := ["=", "!=", "like", "not like"],
    ValueValidator := none, Parser := parseIPFieldExpr }

def portFieldType : FieldType :=
  { Name := "port", SupportedOps := ["=", "!=", ">", "<", ">=", "<="],
    ValueValidator := some portValueValidator, Parser := parsePortFieldExpr }

def protocolFieldType : FieldType :=
  { Name := "protocol", SupportedOps := ["=", "!=", ">", "<", ">=", "<="],
    ValueValidator := none, Parser := parseProtocolFieldExpr }

def numericFieldType : FieldType :=
  { Name := "numeric", SupportedOps := ["=", "!=", ">", "<", ">=", "<="],
    ValueValidator := none, Parser := parseNumericFieldExpr }

/-- Model of `defaultFieldRegistry.GetFieldType` with the default
registrations of `registerDefaultFields`. -/
def GetFieldType (field : String) : Option FieldType :=
  if ipFieldNames.contains field then some ipFieldType
  else if portFieldNames.contains field then some portFieldType
  else if field = "protocol" then some protocolFieldType
  else if numericFieldNames.contains field then some numericFieldType
  else none

/-! ## Clause splitter (`splitOnLogical`) -/

/-- Go slice `s[a:b]` (the source never reaches `a > b` on well-formed
input; Go would panic there, modelled as the empty list). -/
def sliceL (s : List Char) (a b : Nat) : List Char := (s.drop a).take (b - a)

/-- Scan loop of `splitOnLogical`: walks the byte index `i`, keeps the
running parenthesis level, and records a split whenever the level is zero
and the lower-cased input carries `lowerOp` at `i`. Also returns the final
`lastSplit` offset and the list of indices at which splits happened. The
`remaining` counter is fuel for the loop (the entry point supplies more
iterations than the loop can take). -/
def splitAux (s lowerS lowerOp : List Char) :
    Nat → Nat → Int → Nat → List (List Char) → List Nat →
    List (List Char) × Nat × List Nat
  | 0, _, _, lastSplit, acc, idxs => (acc, lastSplit, idxs)
  | remaining + 1, i, parenLevel, lastSplit, acc, idxs =>
    if i + lowerOp.length ≤ s.length then
      let c := s.getD i ' '
      let parenLevel' : Int :=
        if c = '(' then parenLevel + 1
        else if c = ')' then parenLevel - 1
        else parenLevel
      if parenLevel' = 0 ∧ lowerOp.isPrefixOf (lowerS.drop i) then
        splitAux s lowerS lowerOp remaining (i + 1) parenLevel' (i + lowerOp.length)
          (acc ++ [trimSpaceL (sliceL s lastSplit i)]) (idxs ++ [i])
      else
        splitAux s lowerS lowerOp remaining (i + 1) parenLevel' lastSplit acc idxs
    else (acc, lastSplit, idxs)

/-- Model of `splitOnLogical` together with the indices of the split
points: splits `s` on the spaced logical operator `" op "`
(case-insensitively on `s`) wherever the running parenthesis level is
zero. -/
def splitOnLogicalFull (s op : String) : List (List Char) × Nat × List Nat :=
  let sl := s.toList
  let lowerS := lowerL sl
  let lowerOp := ' ' :: op.toList ++ [' ']
  splitAux sl lowerS lowerOp (sl.length + 1) 0 0 0 [] []

def splitOnLogical (s op : String) : List String :=
  let r := splitOnLogicalFull s op
  (r.1 ++ [trimSpaceL (s.toList.drop r.2.1)]).map String.mk

/-- Indices at which `splitOnLogical` splits its input. -/
def splitIndices (s op : String) : List Nat := (splitOnLogicalFull s op).2.2

/-! ## Comparison-operator location (`parseClauseWithSchema`) -/

/-- Longest-match-first candidate list of comparison operators. -/
def operatorCandidates : List String :=
  ["!=", "not like", ">=", "<=", ">", "<", "=", "like"]

/-- Spaced scan: the first candidate (in candidate order) that occurs in
the lower-cased clause surrounded by spaces wins; field and value are the
trimmed substrings of the original clause before/after the match. -/
def findSpacedOperator (clause : List Char) : List String → Option (String × List Char × List Char)
  | [] => none
  | cand :: rest =>
    match strIndex (lowerL clause) (' ' :: cand.toList ++ [' ']) with
    | some idx =>
      some (cand, trimSpaceL (clause.take idx),
        trimSpaceL (clause.drop (idx + cand.length + 2)))
    | none => findSpacedOperator clause rest

/-- Unspaced fallback scan (supports `field=value`). -/
def findUnspacedOperator (clause : List Char) : List String → Option (String × List Char × List Char)
  | [] => none
  | cand :: rest =>
    match strIndex (lowerL clause) cand.toList with
    | some idx =>
      some (cand, trimSpaceL (clause.take idx),
        trimSpaceL (clause.drop (idx + cand.length)))
    | none => findUnspacedOperator clause rest

/-- Operator location of `parseClauseWithSchema`: the spaced scan first,
then the unspaced fallback. -/
def findOperator (clause : List Char) : Option (String × List Char × List Char) :=
  match findSpacedOperator clause operatorCandidates with
  | some r => some r
  | none => findUnspacedOperator clause operatorCandidates

/-- Registry dispatch at the end of `parseClauseWithSchema`: a registered
field runs its validator (when set) and its parser; an unregistered field
only supports equality and pattern operators, taking the value verbatim. -/
def parseClauseRegistry (field value op : String) : Except String Expr :=
  match GetFieldType field with
  | some fieldType =>
    match fieldType.ValueValidator with
    | some vv =>
      match vv value with
      | .error e => .error e
      | .ok _ => fieldType.Parser field op value
    | none => fieldType.Parser field op value
  | none =>
    if op = "=" then .ok (.Eq field (.VStr value))
    else if op = "!=" then .ok (.Neq field (.VStr value))
    else if op = "like" then .ok (.Like field value)
    else if op = "not like" then .ok (.NotLike field value)
    else .error ("unsupported operator for non-numeric field: " ++ op)

/-- Model of `parseClauseWithSchema`: locate the operator, strip quotes
from the value, then — when a schema is present and the field has a
non-empty computed-field expression under the fixed default version —
build directly from that expression, bypassing the registry; otherwise
dispatch to the registry. -/
def parseClauseWithSchema (clause : String) (schema : Option Schema) : Except String Expr :=
  match findOperator clause.toList with
  | none => .error ("invalid filter clause: \"" ++ clause ++ "\"")
  | some (op, fieldL, valueL) =>
    let field := String.mk fieldL
    let value := String.mk (trimCutset ['\'', '"'] valueL)
    match schema with
    | some sch =>
      let computedExpr := sch.GetComputedFieldExpression field DefaultSchemaVersion
      if computedExpr ≠ "" then ParseOperator computedExpr value op
      else parseClauseRegistry field value op
    | none => parseClauseRegistry field value op

/-! ## Recursive-descent filter parser (`filter_parser.go`) -/

def trimSpaceStr (s : String) : String := String.mk (trimSpaceL s.toList)

/-- Collects the parse of each operand part, stopping at the first error
(the loops of `parseOrWithSchema` / `parseAndWithSchema`). -/
def mapParseParts (p : String → Except String Expr) : List String → Except String (List Expr)
  | [] => .ok []
  | x :: rest =>
    match p x with
    | .error e => .error e
    | .ok ex =>
      match mapParseParts p rest with
      | .error e => .error e
      | .ok exs => .ok (ex :: exs)

/-- Model of `parsePrimaryWithSchema`, parameterized by the recursive
re-entry into the filter parser used for a parenthesized group
(`strings.HasPrefix`/`HasSuffix` are checked on the character list). -/
def parsePrimaryG (recur : String → Except String Expr) (schema : Option Schema)
    (s : String) : Except String Expr :=
  let t := trimSpaceL s.toList
  if ['('].isPrefixOf t ∧ [')'].isSuffixOf t then
    recur (String.mk (sliceL t 1 (t.length - 1)))
  else parseClauseWithSchema (String.mk t) schema

/-- Model of `parseAndWithSchema`: a single part degenerates to the
primary level; two or more parts build an `And` node. -/
def parseAndG (recur : String → Except String Expr) (schema : Option Schema)
    (s : String) : Except String Expr :=
  let parts := splitOnLogical s "and"
  if parts.length = 1 then parsePrimaryG recur schema s
  else
    match mapParseParts (parsePrimaryG recur schema) parts with
    | .error e => .error e
    | .ok exprs => .ok (.And exprs)

/-- Model of `parseOrWithSchema`: a single part degenerates to the `And`
level; two or more parts build an `Or` node. -/
def parseOrG (recur : String → Except String Expr) (schema : Option Schema)
    (s : String) : Except String Expr :=
  let parts := splitOnLogical s "or"
  if parts.length = 1 then parseAndG recur schema s
  else
    match mapParseParts (parseAndG recur schema) parts with
    | .error e => .error e
    | .ok exprs => .ok (.Or exprs)

/-- Model of `ParseFilterWithSchema` with explicit fuel for the recursion
through parenthesized groups (the Go recursion consumes at least one pair
of parentheses per round, so the entry point's fuel is never exhausted);
empty input parses to the Go `nil` expression. -/
def parseFilterF : Nat → Option Schema → String → Except String Expr
  | 0, _, _ => .error "parser recursion limit exceeded"
  | fuel + 1, schema, s =>
    let t := trimSpaceStr s
    if t = "" then .ok .GoNilExpr
    else parseOrG (fun inner => parseFilterF fuel schema inner) schema t

def ParseFilterWithSchema (s : String) (schema : Option Schema) : Except String Expr :=
  parseFilterF (s.length + 1) schema s

/-- Model of `ParseFilter`: the schema-less entry point. -/
def ParseFilter (s : String) : Except String Expr := ParseFilterWithSchema s none

/-! ## Post-parse filter validation (`ValidateFilter`) -/

mutual

/-- Tree walk of `ValidateFilter`: `And`/`Or`/`Not` recurse; every leaf
checks its field against the schema/version; a nested Go `nil` expression
hits the default case of the type switch. -/
def validateExpr (schema : Schema) (version : Int) : Expr → Except String Unit
  | .And es => validateExprList schema version es
  | .Or es => validateExprList schema version es
  | .NotExpr e => validateExpr schema version e
  | .Eq f _ => schema.ValidateField f version
  | .Neq f _ => schema.ValidateField f version
  | .Gt f _ => schema.ValidateField f version
  | .Lt f _ => schema.ValidateField f version
  | .Gte f _ => schema.ValidateField f version
  | .Lte f _ => schema.ValidateField f version
  | .Like f _ => schema.ValidateField f version
  | .NotLike f _ => schema.ValidateField f version
  | .IsIpv4InSubnet f _ => schema.ValidateField f version
  | .GoNilExpr => .error "unsupported expression type for validation"

def validateExprList (schema : Schema) (version : Int) : List Expr → Except String Unit
  | [] => .ok ()
  | e :: rest =>
    match validateExpr schema version e with
    | .error err => .error err
    | .ok _ => validateExprList schema version rest

end

/-- Model of `ValidateFilter`: a Go `nil` expression at the top level is
accepted (no filter). -/
def ValidateFilter (expr : Expr) (schema : Schema) (version : Int) : Except String Unit :=
  match expr with
  | .GoNilExpr => .ok ()
  | e => validateExpr schema version e

/-! ## Query builder (`builder_core.go`, `builder_options.go`) -/

/-- Mutable accumulator `Builder`. -/
structure Builder where
  aggregations : List AggregationField
  fields : List String
  pendingFields : List String
  groupBy : List String
  limit : Int
  filters : List Expr
  version : Int
  schema : Schema

/-- Option functions mutate the builder or fail (`Option` in the source;
renamed to avoid the Lean `Option` type). -/
def BuilderOption := Builder → Except String Builder

/-- Model of `Builder.handleRawVerb`. -/
def handleRawVerb (b : Builder) : Builder :=
  let b := { b with aggregations := [] }
  if !b.pendingFields.isEmpty then
    { b with fields := b.pendingFields, pendingFields := [] }
  else if b.fields.isEmpty then { b with fields := ["*"] }
  else b

/-- Model of `Builder.handleAggregationVerb`. -/
def handleAggregationVerb (v : Verb) (b : Builder) : Builder :=
  match b.aggregations with
  | [] => { b with aggregations := [{ Field := "*", Verb := v }] }
  | a :: rest => { b with aggregations := { a with Verb := v } :: rest }

/-- Model of `WithVerb`. -/
def WithVerb (v : Verb) : BuilderOption := fun b =>
  if v = .raw then .ok (handleRawVerb b) else .ok (handleAggregationVerb v b)

/-- Field-list validation loop shared by `WithFields` and `WithGroupBy`,
wrapping schema errors with the given message head. -/
def validateFieldList (b : Builder) (msgHead : String) : List String → Except String Unit
  | [] => .ok ()
  | f :: rest =>
    match b.schema.ValidateField f b.version with
    | .error e => .error (msgHead ++ "'" ++ f ++ "': " ++ e)
    | .ok _ => validateFieldList b msgHead rest

/-- Model of `WithFields`: validate every field, then either set the raw
fields (no aggregations) or store them as pending and point the first
aggregation at the first field. -/
def WithFields (fields : List String) : BuilderOption := fun b =>
  match validateFieldList b "invalid field " fields with
  | .error e => .error e
  | .ok _ =>
    if b.aggregations.isEmpty then .ok { b with fields := fields }
    else
      let b := { b with pendingFields := fields }
      match fields with
      | [] => .ok b
      | f0 :: _ =>
        match b.aggregations with
        | [] => .ok b
        | a :: rest => .ok { b with aggregations := { a with Field := f0 } :: rest }

/-- Validation loop of `WithAggregations`: each field must exist for the
version, and any verb other than `Count` requires a numeric field. -/
def checkAggregations (b : Builder) : List AggregationField → Except String Unit
  | [] => .ok ()
  | agg :: rest =>
    match b.schema.ValidateField agg.Field b.version with
    | .error e => .error ("invalid field '" ++ agg.Field ++ "': " ++ e)
    | .ok _ =>
      if agg.Verb ≠ .count ∧ !(b.schema.IsNumeric agg.Field) then
        .error ("field '" ++ agg.Field ++ "' must be numeric for verb '" ++
          verbName agg.Verb ++ "'")
      else checkAggregations b rest

/-- Model of `WithAggregations`. -/
def WithAggregations (aggregations : List AggregationField) : BuilderOption := fun b =>
  match checkAggregations b aggregations with
  | .error e => .error e
  | .ok _ => .ok { b with aggregations := aggregations }

/-- Model of `WithGroupBy`. -/
def WithGroupBy (fields : List String) : BuilderOption := fun b =>
  match validateFieldList b "invalid group by field " fields with
  | .error e => .error e
  | .ok _ => .ok { b with groupBy := fields }

/-- Model of `WithLimit`: negative limits are rejected. -/
def WithLimit (n : Int) : BuilderOption := fun b =>
  if n < 0 then .error "limit must be non-negative"
  else .ok { b with limit := n }

/-- Model of `WithFilter`: the expression is validated against the
builder's schema and version, then appended. -/
def WithFilter (e : Expr) : BuilderOption := fun b =>
  match ValidateFilter e b.schema b.version with
  | .error err => .error err
  | .ok _ => .ok { b with filters := b.filters ++ [e] }

/-- Model of `WithVersion`. -/
def WithVersion (v : Int) : BuilderOption := fun b =>
  match b.schema.ValidateVersion v with
  | .error e => .error ("invalid version " ++ toString v ++ ": " ++ e)
  | .ok _ => .ok { b with version := v }

/-- Default builder state created by `New` before options run. -/
def defaultBuilder (schema : Schema) : Builder :=
  { aggregations := [{ Field := "*", Verb := .count }]
    fields := []
    pendingFields := []
    groupBy := []
    limit := 100
    filters := []
    version := schema.GetDefaultVersion
    schema := schema }

/-- Ordered fail-fast option application of `New`. -/
def applyOptions : Builder → List BuilderOption → Except String Builder
  | b, [] => .ok b
  | b, opt :: rest =>
    match opt b with
    | .error e => .error e
    | .ok b2 => applyOptions b2 rest

/-- Model of `New`. -/
def New (schema : Schema) (opts : List BuilderOption) : Except String Builder :=
  applyOptions (defaultBuilder schema) opts

/-- Model of `Builder.buildGroupByExpressions`. -/
def Builder.buildGroupByExpressions (b : Builder) : String :=
  if b.groupBy.isEmpty then ""
  else
    String.intercalate ", " (b.groupBy.map (fun field =>
      let computedExpr := b.schema.GetComputedFieldExpression field b.version
      if computedExpr ≠ "" then computedExpr ++ " as " ++ field else field))

/-- Model of `Builder.buildStatsAndSortClauses`: one
`verb(resolved-field) as alias` per aggregation, a `by` suffix when
grouping is set, and a sort clause on the first aggregation's alias. -/
def Builder.buildStatsAndSortClauses (b : Builder) : String × String :=
  match b.aggregations with
  | [] => ("", "")
  | first :: _ =>
    let stats := b.aggregations.map (fun agg =>
      let statFn := verbToStat agg.Verb
      let aliasStr := agg.getAlias
      let computedExpr := b.schema.GetComputedFieldExpression agg.Field b.version
      if computedExpr ≠ "" then statFn ++ "(" ++ computedExpr ++ ") as " ++ aliasStr
      else statFn ++ "(" ++ agg.Field ++ ") as " ++ aliasStr)
    let statsClause := "stats " ++ String.intercalate ", " stats
    let statsClause :=
      if !b.groupBy.isEmpty then statsClause ++ " by " ++ b.buildGroupByExpressions
      else statsClause
    (statsClause, "sort " ++ first.getAlias ++ " desc")

/-- Model of `Builder.buildDisplayClause`. -/
def Builder.buildDisplayClause (b : Builder) : String :=
  if b.fields.isEmpty then ""
  else
    "display " ++ String.intercalate ", " (b.fields.map (fun field =>
      let computedExpr := b.schema.GetComputedFieldExpression field b.version
      if computedExpr ≠ "" then computedExpr ++ " as " ++ field else field))

/-- Model of `Builder.String`: parse pattern, filter clause, stats/sort or
display clause, and limit, pipe-joined; an unsupported version renders the
empty string. -/
def Builder.String (b : Builder) : String :=
  match b.schema.GetParsePattern b.version with
  | .error _ => ""
  | .ok parsePattern =>
    let parts := [parsePattern]
    let parts :=
      if !b.filters.isEmpty then parts ++ ["filter " ++ Expr.render (.And b.filters)]
      else parts
    let parts :=
      if !b.aggregations.isEmpty then
        let sc := b.buildStatsAndSortClauses
        parts ++ [sc.1, sc.2]
      else if !b.fields.isEmpty ∧ b.fields.headD "" ≠ "*" then
        let displayClause := b.buildDisplayClause
        if displayClause ≠ "" then parts ++ [displayClause] else parts
      else parts
    let parts :=
      if b.limit > 0 then parts ++ ["limit " ++ toString b.limit]
      else parts
    String.intercalate " | " parts

/-! ## Auxiliary notions used by the statements below -/

/-- Success of an `Except` computation (a `nil` Go error). -/
def exceptIsOk {α β : Type} : Except α β → Bool
  | .ok _ => true
  | .error _ => false

/-- Substring test built on the `strings.Index` model. -/
def containsSubStr (s pat : String) : Bool := (strIndex s.toList pat.toList).isSome

/-- Parenthesis depth of the first `n` characters of `s`: opening minus
closing parentheses, the quantity `splitOnLogical` tracks while scanning. -/
def prefixDepth (s : List Char) (n : Nat) : Int :=
  (((s.take n).countP (· = '(')) : Int) - (((s.take n).countP (· = ')')) : Int)

mutual

/-- Every `And`/`Or` node of the expression has at least two children. -/
def noUnaryBoolOps : Expr → Bool
  | .And es => decide (2 ≤ es.length) && noUnaryBoolOpsList es
  | .Or es => decide (2 ≤ es.length) && noUnaryBoolOpsList es
  | .NotExpr e => noUnaryBoolOps e
  | .Eq _ _ => true
  | .Neq _ _ => true
  | .Gt _ _ => true
  | .Lt _ _ => true
  | .Gte _ _ => true
  | .Lte _ _ => true
  | .Like _ _ => true
  | .NotLike _ _ => true
  | .IsIpv4InSubnet _ _ => true
  | .GoNilExpr => true

def noUnaryBoolOpsList : List Expr → Bool
  | [] => true
  | e :: rest => noUnaryBoolOps e && noUnaryBoolOpsList rest

end

/-! ## Helper lemmas -/

theorem renderList_eq_map : ∀ es : List Expr, Expr.renderList es = es.map Expr.render := by
  intro es
  induction es with
  | nil => rfl
  | cons e rest ih => simp [Expr.renderList, ih]

theorem intercalate_singleton (s a : String) : String.intercalate s [a] = a := by
  simp [String.intercalate, String.intercalate.go]

theorem checkAggregations_ok {b : Builder} :
    ∀ aggs : List AggregationField, checkAggregations b aggs = .ok () →
      ∀ a ∈ aggs, a.Verb ≠ .count → b.schema.IsNumeric a.Field = true := by
  intro aggs
  induction aggs with
  | nil =>
    intro _ a ha
    simp at ha
  | cons agg rest ih =>
    intro h a ha hverb
    unfold checkAggregations at h
    cases hval : b.schema.ValidateField agg.Field b.version with
    | error e => rw [hval] at h; simp at h
    | ok u =>
      cases u
      rw [hval] at h
      dsimp only at h
      split at h
      · simp at h
      · next hcond =>
        rcases List.mem_cons.mp ha with rfl | hmem
        · by_contra hnum
          apply hcond
          refine ⟨hverb, ?_⟩
          have hfalse : b.schema.IsNumeric a.Field = false := by
            cases hb : b.schema.IsNumeric a.Field
            · rfl
            · exact absurd hb hnum
          simp [hfalse]
        · exact ih h a hmem hverb

theorem lastIndexChar_imp_mem {c : Char} :
    ∀ {l : List Char} {i : Nat}, lastIndexChar c l = some i → c ∈ l := by
  intro l
  induction l with
  | nil => intro i h; simp [lastIndexChar] at h
  | cons x rest ih =>
    intro i h
    unfold lastIndexChar at h
    cases hr : lastIndexChar c rest with
    | some j => exact List.mem_cons_of_mem x (ih hr)
    | none =>
      rw [hr] at h
      by_cases hx : x = c
      · subst hx; exact List.mem_cons_self x rest
      · simp [hx] at h

theorem parsePrefixOk_contains {l : List Char} (h : parsePrefixOk l = true) :
    l.contains '/' = true := by
  unfold parsePrefixOk at h
  cases hl : lastIndexChar '/' l with
  | none => rw [hl] at h; simp at h
  | some i =>
    have hmem : '/' ∈ l := lastIndexChar_imp_mem hl
    simpa using hmem

/-- Parenthesis-level update of one scan step of `splitOnLogical`. -/
def charDepthDelta (c : Char) : Int :=
  if c = '(' then 1 else if c = ')' then -1 else 0

theorem prefixDepth_zero (s : List Char) : prefixDepth s 0 = 0 := by
  simp [prefixDepth]

theorem prefixDepth_succ (s : List Char) (i : Nat) :
    prefixDepth s (i + 1) = prefixDepth s i + charDepthDelta (s.getD i ' ') := by
  unfold prefixDepth charDepthDelta
  rw [List.take_succ, List.getD_eq_getElem?_getD]
  cases hio : s[i]? with
  | none => simp [hio]
  | some c =>
    simp only [Option.toList_some, Option.getD_some, List.countP_append,
      List.countP_cons, List.countP_nil]
    by_cases h1 : c = '(' <;> by_cases h2 : c = ')' <;>
      simp +decide [h1, h2] <;> omega

theorem splitAux_depth (s lowerS lowerOp : List Char) :
    ∀ (remaining i : Nat) (paren : Int) (lastSplit : Nat)
      (acc : List (List Char)) (idxs : List Nat),
      paren = prefixDepth s i →
      (∀ j ∈ idxs, prefixDepth s (j + 1) = 0) →
      ∀ j ∈ (splitAux s lowerS lowerOp remaining i paren lastSplit acc idxs).2.2,
        prefixDepth s (j + 1) = 0 := by
  intro remaining
  induction remaining with
  | zero =>
    intro i paren lastSplit acc idxs _hp hidx j hj
    exact hidx j hj
  | succ r ih =>
    intro i paren lastSplit acc idxs hp hidx j hj
    unfold splitAux at hj
    by_cases hcond : i + lowerOp.length ≤ s.length
    · rw [if_pos hcond] at hj
      dsimp only at hj
      have hstep :
          (if s.getD i ' ' = '(' then paren + 1
           else if s.getD i ' ' = ')' then paren - 1 else paren) =
            prefixDepth s (i + 1) := by
        rw [prefixDepth_succ, ← hp]
        unfold charDepthDelta
        by_cases h1 : s.getD i ' ' = '('
        · rw [h1]
          simp +decide
        · by_cases h2 : s.getD i ' ' = ')'
          · rw [h2]
            simp +decide
            omega
          · rw [if_neg h1, if_neg h2, if_neg h1, if_neg h2]
            simp
      rw [hstep] at hj
      split at hj
      · next hmatch =>
        refine ih (i + 1) _ _ _ _ rfl ?_ j hj
        intro j2 hj2
        rcases List.mem_append.mp hj2 with hold | hnew
        · exact hidx j2 hold
        · have : j2 = i := by simpa using hnew
          subst this
          exact hmatch.1
      · exact ih (i + 1) _ _ _ _ rfl hidx j hj
    · rw [if_neg hcond] at hj
      exact hidx j hj

/-! ## Claim theorems -/

/-- C1: building a query against the VPC flow-logs schema at the default
version 2 with `WithVerb Count`, `WithGroupBy srcaddr`,
`WithFilter (Eq interface_id eni-123)` and `WithLimit 10` succeeds, and
`String()` renders exactly the version-2 parse pattern followed by the
filter, stats, sort and limit clauses of the claim. -/
theorem c1_end_to_end :
    (New vpcFlowLogsSchema
      [WithVerb .count, WithGroupBy ["srcaddr"],
       WithFilter (.Eq "interface_id" (.VStr "eni-123")), WithLimit 10]).map Builder.String =
    .ok (ParsePatternV2 ++
      " | filter interface_id = 'eni-123' | stats count(*) as flows by srcaddr | sort flows desc | limit 10") := by
  rfl

/-- C2 (counterexample): the claimed invariant fails on the legacy
`WithVerb` path: `New(schema, WithVerb(Sum))` succeeds and leaves the
aggregation `(*, Sum)`, whose verb is not `Count` while the schema does
not classify `*` as numeric. -/
theorem c2_counterexample :
    (New vpcFlowLogsSchema [WithVerb .sum]).map Builder.aggregations =
      .ok [{ Field := "*", Verb := .sum }] ∧
    vpcFlowLogsSchema.IsNumeric "*" = false ∧ Verb.sum ≠ Verb.count := by
  refine ⟨rfl, rfl, by decide⟩

/-- C2 (amended): the non-Count-implies-numeric invariant is enforced at
registration time on the `WithAggregations` path only — every builder a
successful `WithAggregations` call produces has only aggregations whose
non-`Count` entries the schema classifies as numeric. The legacy
`WithVerb`/`WithFields` path performs no such check. -/
theorem c2_aggregations_numeric_amended :
    ∀ (aggs : List AggregationField) (b b' : Builder),
      WithAggregations aggs b = .ok b' →
      ∀ a ∈ b'.aggregations, a.Verb ≠ .count → b.schema.IsNumeric a.Field = true := by
  intro aggs b b' h a ha hverb
  unfold WithAggregations at h
  cases hch : checkAggregations b aggs with
  | error e => rw [hch] at h; simp at h
  | ok u =>
    cases u
    rw [hch] at h
    simp only [Except.ok.injEq] at h
    subst h
    exact checkAggregations_ok aggs hch a ha hverb

/-- Witness for C2 (amended) at a concrete registration. -/
theorem c2_aggregations_numeric_amended_witness :
    (defaultBuilder vpcFlowLogsSchema).schema.IsNumeric "bytes" = true :=
  c2_aggregations_numeric_amended [⟨"bytes", .sum⟩] (defaultBuilder vpcFlowLogsSchema)
    { defaultBuilder vpcFlowLogsSchema with aggregations := [⟨"bytes", .sum⟩] }
    rfl ⟨"bytes", .sum⟩ (by simp) (by decide)

/-- C3 (counterexample): an occurrence of `" and "` inside a single-quoted
value does split the expression — `splitOnLogical` tracks parentheses
only, not quotes — so the clause splitter cuts `a = 'b and c'` into two
operands instead of leaving it whole. -/
theorem c3_counterexample :
    splitOnLogical "a = 'b and c'" "and" = ["a = 'b", "c'"] ∧
    (splitOnLogical "a = 'b and c'" "and").length ≠ 1 := by
  refine ⟨rfl, by decide⟩

/-- C3 (amended): the clause splitter respects parentheses only — every
index at which `splitOnLogical` splits lies at parenthesis depth zero —
but it does not respect quoting: an occurrence of the operator inside a
single- or double-quoted value does split (see the counterexample). -/
theorem c3_split_outside_parens_amended :
    ∀ (s op : String) (i : Nat), i ∈ splitIndices s op →
      prefixDepth s.toList (i + 1) = 0 := by
  intro s op i hi
  unfold splitIndices splitOnLogicalFull at hi
  exact splitAux_depth _ _ _ _ 0 0 0 [] []
    (by rw [prefixDepth_zero]) (by simp) i hi

/-- Witness for C3 (amended) at the split point of `a and b`. -/
theorem c3_split_outside_parens_amended_witness :
    prefixDepth "a and b".toList 2 = 0 :=
  c3_split_outside_parens_amended "a and b" "and" 1 (by decide)

/-- C6: a syntactically valid CIDR value on an IP-class field yields
`IsIpv4InSubnet` under `=`/`like` and its `Not` wrapping under
`!=`/`not like`; concretely, `srcaddr = '10.0.0.0/24'` parses to the
subnet check and `srcaddr != '10.0.0.0/24'` to its negation. -/
theorem c6_cidr_semantics :
    ParseFilter "srcaddr = '10.0.0.0/24'" = .ok (.IsIpv4InSubnet "srcaddr" "10.0.0.0/24") ∧
    ParseFilter "srcaddr != '10.0.0.0/24'" =
      .ok (.NotExpr (.IsIpv4InSubnet "srcaddr" "10.0.0.0/24")) ∧
    (∀ (field op value : String),
      ipFieldNames.contains field = true →
      parsePrefixOkStr value = true →
      ((op = "=" ∨ op = "like") →
        parseIPFieldExpr field op value = .ok (.IsIpv4InSubnet field value)) ∧
      ((op = "!=" ∨ op = "not like") →
        parseIPFieldExpr field op value = .ok (.NotExpr (.IsIpv4InSubnet field value)))) := by
  refine ⟨rfl, rfl, ?_⟩
  intro field op value _hip hpre
  have hcont : value.toList.contains '/' = true := parsePrefixOk_contains hpre
  have hmem : '/' ∈ value.data := by simpa using hcont
  have hpre2 : parsePrefixOk value.data = true := hpre
  constructor
  · rintro (rfl | rfl) <;>
      simp +decide [parseIPFieldExpr, hmem, hpre2, parsePrefixOkStr]
  · rintro (rfl | rfl) <;>
      simp +decide [parseIPFieldExpr, hmem, hpre2, parsePrefixOkStr]

/-- Witness for C6 at a concrete IP field, operator and CIDR. -/
theorem c6_cidr_semantics_witness :
    parseIPFieldExpr "srcaddr" "=" "10.0.0.0/24" =
      .ok (.IsIpv4InSubnet "srcaddr" "10.0.0.0/24") :=
  (c6_cidr_semantics.2.2 "srcaddr" "=" "10.0.0.0/24" rfl rfl).1 (Or.inl rfl)

/-- C4 (counterexample): `ValidateField` checks the version before the
synthetic fields, so under an unsupported version even `"*"` and
`"duration"` are rejected. -/
theorem c4_counterexample :
    vpcFlowLogsSchema.ValidateField "*" 99 = .error "invalid flow log version: 99" ∧
    vpcFlowLogsSchema.ValidateField "duration" 99 = .error "invalid flow log version: 99" := by
  refine ⟨rfl, rfl⟩

/-- C4 (amended): for every version the schema supports (those present in
the `versionFields` map: 2, 3 and 5), `ValidateField` accepts `"*"` and
`"duration"` regardless of the version's field list. -/
theorem c4_always_valid_amended :
    ∀ version : Int, (versionFields version).isSome = true →
      vpcFlowLogsSchema.ValidateField "*" version = .ok () ∧
      vpcFlowLogsSchema.ValidateField "duration" version = .ok () := by
  intro v h
  have hs : vpcFlowLogsSchema.ValidateField = vpcValidateField := rfl
  rw [hs]
  unfold vpcValidateField
  cases hv : versionFields v with
  | none => rw [hv] at h; simp at h
  | some fields => simp [hv]

/-- Witness for C4 (amended) at version 2. -/
theorem c4_always_valid_amended_witness :
    vpcFlowLogsSchema.ValidateField "*" 2 = .ok () ∧
    vpcFlowLogsSchema.ValidateField "duration" 2 = .ok () :=
  c4_always_valid_amended 2 rfl

/-- C8: the `Or` renderer always parenthesizes — even a single-child `Or`
renders as the parenthesized child — while the `And` renderer joins its
children with `" and "` and never adds parentheses. -/
theorem c8_or_and_rendering :
    (∀ e : Expr, Expr.render (.Or [e]) = "(" ++ Expr.render e ++ ")") ∧
    (∀ es : List Expr, es ≠ [] →
      Expr.render (.Or es) = "(" ++ String.intercalate " or " (es.map Expr.render) ++ ")") ∧
    (∀ es : List Expr, Expr.render (.And es) = String.intercalate " and " (es.map Expr.render)) := by
  refine ⟨?_, ?_, ?_⟩
  · intro e
    simp [Expr.render, Expr.renderList]
  · intro es hne
    match es with
    | [e] =>
      simp [Expr.render, Expr.renderList, intercalate_singleton]
    | e1 :: e2 :: rest =>
      simp [Expr.render, renderList_eq_map]
  · intro es
    match es with
    | [] => rfl
    | e :: rest =>
      simp [Expr.render, renderList_eq_map]

/-- Witness for C8 at a concrete two-child disjunction. -/
theorem c8_or_and_rendering_witness :
    Expr.render (.Or [.Eq "a" (.VStr "1"), .Eq "b" (.VStr "2")]) =
      "(" ++ String.intercalate " or "
        ([Expr.Eq "a" (.VStr "1"), Expr.Eq "b" (.VStr "2")].map Expr.render) ++ ")" :=
  c8_or_and_rendering.2.1 [.Eq "a" (.VStr "1"), .Eq "b" (.VStr "2")] (by simp)

/-- C7: whenever the aggregation list is non-empty, the sort clause built
by `buildStatsAndSortClauses` is exactly `sort <alias-of-first> desc`, and
the alias is a pure function of the first aggregation only: `flows` for
`(*, Count)`, else `<field>_<verb-keyword>`. -/
theorem c7_sort_first_alias :
    (∀ (b : Builder) (a : AggregationField) (rest : List AggregationField),
      b.aggregations = a :: rest →
      (b.buildStatsAndSortClauses).2 = "sort " ++ a.getAlias ++ " desc") ∧
    (∀ af : AggregationField,
      af.getAlias = if af.Field = "*" ∧ af.Verb = .count then "flows"
                    else af.Field ++ "_" ++ verbToStat af.Verb) := by
  constructor
  · intro b a rest h
    unfold Builder.buildStatsAndSortClauses
    rw [h]
  · intro af
    rfl

/-- Witness for C7 at a concrete two-aggregation builder. -/
theorem c7_sort_first_alias_witness :
    (({ defaultBuilder vpcFlowLogsSchema with
        aggregations := [⟨"bytes", .sum⟩, ⟨"packets", .avg⟩] } : Builder).buildStatsAndSortClauses).2 =
      "sort " ++ AggregationField.getAlias ⟨"bytes", .sum⟩ ++ " desc" :=
  c7_sort_first_alias.1 _ ⟨"bytes", .sum⟩ [⟨"packets", .avg⟩] rfl

/-- C9: `WithLimit n` fails exactly when `n` is negative; a limit of `0`
is accepted and suppresses the limit clause entirely, while an untouched
builder keeps the default limit 100 and renders `limit 100`. -/
theorem c9_with_limit :
    (∀ (n : Int) (b : Builder), exceptIsOk (WithLimit n b) = true ↔ 0 ≤ n) ∧
    (New vpcFlowLogsSchema [WithLimit 0]).map Builder.String =
      .ok (ParsePatternV2 ++ " | stats count(*) as flows | sort flows desc") ∧
    (New vpcFlowLogsSchema [WithLimit 0]).map
      (fun b => containsSubStr b.String "limit") = .ok false ∧
    (New vpcFlowLogsSchema []).map Builder.String =
      .ok (ParsePatternV2 ++ " | stats count(*) as flows | sort flows desc | limit 100") := by
  refine ⟨?_, rfl, rfl, rfl⟩
  intro n b
  by_cases h : n < 0
  · simp [WithLimit, exceptIsOk, h]
  · simp [WithLimit, exceptIsOk, h]
    omega

/-- Witness for C9 at the concrete limit 0 on a default builder. -/
theorem c9_with_limit_witness :
    exceptIsOk (WithLimit 0 (defaultBuilder vpcFlowLogsSchema)) = true :=
  (c9_with_limit.1 0 (defaultBuilder vpcFlowLogsSchema)).mpr (by decide)

theorem findSpacedOperator_mem :
    ∀ (cands : List String) (clause : List Char) (op : String) (f v : List Char),
      findSpacedOperator clause cands = some (op, f, v) → op ∈ cands := by
  intro cands
  induction cands with
  | nil =>
    intro clause op f v h
    simp [findSpacedOperator] at h
  | cons c rest ih =>
    intro clause op f v h
    unfold findSpacedOperator at h
    cases hidx : strIndex (lowerL clause) (' ' :: c.toList ++ [' ']) with
    | some idx =>
      rw [hidx] at h
      simp only [Option.some.injEq, Prod.mk.injEq] at h
      exact h.1 ▸ List.mem_cons_self c rest
    | none =>
      rw [hidx] at h
      exact List.mem_cons_of_mem c (ih clause op f v h)

theorem findUnspacedOperator_mem :
    ∀ (cands : List String) (clause : List Char) (op : String) (f v : List Char),
      findUnspacedOperator clause cands = some (op, f, v) → op ∈ cands := by
  intro cands
  induction cands with
  | nil =>
    intro clause op f v h
    simp [findUnspacedOperator] at h
  | cons c rest ih =>
    intro clause op f v h
    unfold findUnspacedOperator at h
    cases hidx : strIndex (lowerL clause) c.toList with
    | some idx =>
      rw [hidx] at h
      simp only [Option.some.injEq, Prod.mk.injEq] at h
      exact h.1 ▸ List.mem_cons_self c rest
    | none =>
      rw [hidx] at h
      exact List.mem_cons_of_mem c (ih clause op f v h)

theorem findOperator_mem {clause : List Char} {op : String} {f v : List Char}
    (h : findOperator clause = some (op, f, v)) : op ∈ operatorCandidates := by
  unfold findOperator at h
  cases hs : findSpacedOperator clause operatorCandidates with
  | some r =>
    rw [hs] at h
    simp only [Option.some.injEq] at h
    subst h
    exact findSpacedOperator_mem _ _ _ _ _ hs
  | none =>
    rw [hs] at h
    exact findUnspacedOperator_mem _ _ _ _ _ h

theorem ParseOperator_ok_of_mem {op : String} (hop : op ∈ operatorCandidates) :
    ∀ field value, ∃ e, ParseOperator field value op = .ok e := by
  intro field value
  unfold operatorCandidates at hop
  simp only [List.mem_cons, List.not_mem_nil, or_false] at hop
  rcases hop with rfl | rfl | rfl | rfl | rfl | rfl | rfl | rfl <;> exact ⟨_, rfl⟩

/-- C10: with a schema present, a clause whose field has a non-empty
computed-field expression (looked up at the fixed default version 2) is
built straight from that expression and the quote-trimmed raw value via
the unified operator parser — bypassing registry and validators, so every
value is accepted; concretely `duration > abc` succeeds with the VPC
schema and fails without it. -/
theorem c10_computed_field_bypass :
    (∀ (sch : Schema) (clause op : String) (fieldL valueL : List Char),
      findOperator clause.toList = some (op, fieldL, valueL) →
      sch.GetComputedFieldExpression (String.mk fieldL) DefaultSchemaVersion ≠ "" →
      parseClauseWithSchema clause (some sch) =
        ParseOperator (sch.GetComputedFieldExpression (String.mk fieldL) DefaultSchemaVersion)
          (String.mk (trimCutset ['\'', '"'] valueL)) op ∧
      ∃ e, parseClauseWithSchema clause (some sch) = .ok e) ∧
    DefaultSchemaVersion = 2 ∧
    parseClauseWithSchema "duration > abc" (some vpcFlowLogsSchema) =
      .ok (.Gt "end - start" (.VStr "abc")) ∧
    parseClauseWithSchema "duration > abc" none =
      .error "invalid numeric value for field duration: abc" := by
  refine ⟨?_, rfl, rfl, rfl⟩
  intro sch clause op fieldL valueL hfind hcomp
  have heq : parseClauseWithSchema clause (some sch) =
      ParseOperator (sch.GetComputedFieldExpression (String.mk fieldL) DefaultSchemaVersion)
        (String.mk (trimCutset ['\'', '"'] valueL)) op := by
    unfold parseClauseWithSchema
    rw [hfind]
    dsimp only
    rw [if_pos hcomp]
  refine ⟨heq, ?_⟩
  rw [heq]
  exact ParseOperator_ok_of_mem (findOperator_mem hfind) _ _

/-- Witness for C10 at the computed field `duration`. -/
theorem c10_computed_field_bypass_witness :
    parseClauseWithSchema "duration > 5" (some vpcFlowLogsSchema) =
      ParseOperator
        (vpcFlowLogsSchema.GetComputedFieldExpression (String.mk "duration".toList)
          DefaultSchemaVersion)
        (String.mk (trimCutset ['\'', '"'] "5".toList)) ">" :=
  (c10_computed_field_bypass.1 vpcFlowLogsSchema "duration > 5" ">"
    "duration".toList "5".toList rfl (by decide)).1

theorem ParseOperator_noUnary {f v op : String} {e : Expr}
    (h : ParseOperator f v op = .ok e) : noUnaryBoolOps e = true := by
  unfold ParseOperator at h
  split_ifs at h <;> first
    | (injection h with h2; subst h2; rfl)
    | exact absurd h (by simp)

theorem parseIPFieldExpr_noUnary {f op v : String} {e : Expr}
    (h : parseIPFieldExpr f op v = .ok e) : noUnaryBoolOps e = true := by
  unfold parseIPFieldExpr at h
  split_ifs at h <;> first
    | (injection h with h2; subst h2; rfl)
    | exact absurd h (by simp)

theorem parsePortFieldExpr_noUnary {f op v : String} {e : Expr}
    (h : parsePortFieldExpr f op v = .ok e) : noUnaryBoolOps e = true := by
  unfold parsePortFieldExpr at h
  cases ha : goAtoiStr v with
  | none => rw [ha] at h; simp at h
  | some port =>
    rw [ha] at h
    dsimp only at h
    split_ifs at h <;> first
      | exact ParseOperator_noUnary h
      | exact absurd h (by simp)

theorem parseNumericFieldExpr_noUnary {f op v : String} {e : Expr}
    (h : parseNumericFieldExpr f op v = .ok e) : noUnaryBoolOps e = true := by
  unfold parseNumericFieldExpr at h
  split_ifs at h <;> first
    | exact ParseOperator_noUnary h
    | exact absurd h (by simp)

theorem parseProtocolFieldExpr_noUnary {f op v : String} {e : Expr}
    (h : parseProtocolFieldExpr f op v = .ok e) : noUnaryBoolOps e = true := by
  unfold parseProtocolFieldExpr at h
  cases ha : goAtoiStr v with
  | some num =>
    rw [ha] at h
    dsimp only at h
    exact ParseOperator_noUnary h
  | none =>
    rw [ha] at h
    dsimp only at h
    cases hp : protocolAcronym (String.mk (lowerL v.toList)) with
    | some pn =>
      rw [hp] at h
      dsimp only at h
      exact ParseOperator_noUnary h
    | none =>
      rw [hp] at h
      dsimp only at h
      exact ParseOperator_noUnary h

theorem parseClauseRegistry_noUnary {field value op : String} {e : Expr}
    (h : parseClauseRegistry field value op = .ok e) : noUnaryBoolOps e = true := by
  unfold parseClauseRegistry at h
  cases hft : GetFieldType field with
  | none =>
    rw [hft] at h
    dsimp only at h
    split_ifs at h <;> first
      | (injection h with h2; subst h2; rfl)
      | exact absurd h (by simp)
  | some ft =>
    rw [hft] at h
    dsimp only at h
    unfold GetFieldType at hft
    split_ifs at hft <;> injection hft with hft2 <;> subst hft2 <;>
      dsimp only [ipFieldType, portFieldType, protocolFieldType, numericFieldType] at h
    · exact parseIPFieldExpr_noUnary h
    · cases hv : portValueValidator value with
      | error err => rw [hv] at h; simp at h
      | ok u =>
        rw [hv] at h
        dsimp only at h
        exact parsePortFieldExpr_noUnary h
    · exact parseProtocolFieldExpr_noUnary h
    · exact parseNumericFieldExpr_noUnary h

theorem parseClauseWithSchema_noUnary {clause : String} {schema : Option Schema} {e : Expr}
    (h : parseClauseWithSchema clause schema = .ok e) : noUnaryBoolOps e = true := by
  unfold parseClauseWithSchema at h
  cases hf : findOperator clause.toList with
  | none => rw [hf] at h; simp at h
  | some r =>
    obtain ⟨op, fieldL, valueL⟩ := r
    rw [hf] at h
    dsimp only at h
    cases schema with
    | none => exact parseClauseRegistry_noUnary h
    | some sch =>
      dsimp only at h
      split_ifs at h
      · exact ParseOperator_noUnary h
      · exact parseClauseRegistry_noUnary h

theorem mapParseParts_wf {p : String → Except String Expr}
    (hp : ∀ s e, p s = .ok e → noUnaryBoolOps e = true) :
    ∀ (parts : List String) (es : List Expr), mapParseParts p parts = .ok es →
      es.length = parts.length ∧ noUnaryBoolOpsList es = true := by
  intro parts
  induction parts with
  | nil =>
    intro es h
    unfold mapParseParts at h
    simp only [Except.ok.injEq] at h
    subst h
    exact ⟨rfl, rfl⟩
  | cons x rest ih =>
    intro es h
    unfold mapParseParts at h
    cases hx : p x with
    | error err => rw [hx] at h; simp at h
    | ok ex =>
      rw [hx] at h
      dsimp only at h
      cases hrest : mapParseParts p rest with
      | error err => rw [hrest] at h; simp at h
      | ok exs =>
        rw [hrest] at h
        simp only [Except.ok.injEq] at h
        subst h
        obtain ⟨hlen, hwf⟩ := ih exs hrest
        refine ⟨by simp [hlen], ?_⟩
        simp [noUnaryBoolOpsList, hp x ex hx, hwf]

theorem splitOnLogical_ne_nil (s op : String) : splitOnLogical s op ≠ [] := by
  unfold splitOnLogical
  simp

theorem parsePrimaryG_wf {recur : String → Except String Expr} {sch : Option Schema}
    (hr : ∀ s e, recur s = .ok e → noUnaryBoolOps e = true) :
    ∀ s e, parsePrimaryG recur sch s = .ok e → noUnaryBoolOps e = true := by
  intro s e h
  unfold parsePrimaryG at h
  dsimp only at h
  split_ifs at h
  · exact hr _ _ h
  · exact parseClauseWithSchema_noUnary h

theorem parseAndG_wf {recur : String → Except String Expr} {sch : Option Schema}
    (hr : ∀ s e, recur s = .ok e → noUnaryBoolOps e = true) :
    ∀ s e, parseAndG recur sch s = .ok e → noUnaryBoolOps e = true := by
  intro s e h
  unfold parseAndG at h
  dsimp only at h
  split_ifs at h with hlen
  · exact parsePrimaryG_wf hr s e h
  · cases hm : mapParseParts (parsePrimaryG recur sch) (splitOnLogical s "and") with
    | error err => rw [hm] at h; simp at h
    | ok exprs =>
      rw [hm] at h
      simp only [Except.ok.injEq] at h
      subst h
      obtain ⟨hlen2, hwf⟩ := mapParseParts_wf (parsePrimaryG_wf hr) _ _ hm
      have hne := splitOnLogical_ne_nil s "and"
      have h2 : 2 ≤ (splitOnLogical s "and").length := by
        rcases hsp : splitOnLogical s "and" with _ | ⟨a, _ | ⟨b, tl⟩⟩
        · exact absurd hsp hne
        · exact absurd (by simp [hsp]) hlen
        · simp [hsp]
      have h2e : 2 ≤ exprs.length := by rw [hlen2]; exact h2
      simp [noUnaryBoolOps, h2e, hwf]

theorem parseOrG_wf {recur : String → Except String Expr} {sch : Option Schema}
    (hr : ∀ s e, recur s = .ok e → noUnaryBoolOps e = true) :
    ∀ s e, parseOrG recur sch s = .ok e → noUnaryBoolOps e = true := by
  intro s e h
  unfold parseOrG at h
  dsimp only at h
  split_ifs at h with hlen
  · exact parseAndG_wf hr s e h
  · cases hm : mapParseParts (parseAndG recur sch) (splitOnLogical s "or") with
    | error err => rw [hm] at h; simp at h
    | ok exprs =>
      rw [hm] at h
      simp only [Except.ok.injEq] at h
      subst h
      obtain ⟨hlen2, hwf⟩ := mapParseParts_wf (parseAndG_wf hr) _ _ hm
      have hne := splitOnLogical_ne_nil s "or"
      have h2 : 2 ≤ (splitOnLogical s "or").length := by
        rcases hsp : splitOnLogical s "or" with _ | ⟨a, _ | ⟨b, tl⟩⟩
        · exact absurd hsp hne
        · exact absurd (by simp [hsp]) hlen
        · simp [hsp]
      have h2e : 2 ≤ exprs.length := by rw [hlen2]; exact h2
      simp [noUnaryBoolOps, h2e, hwf]

theorem parseFilterF_wf :
    ∀ (fuel : Nat) (sch : Option Schema) (s : String) (e : Expr),
      parseFilterF fuel sch s = .ok e → noUnaryBoolOps e = true := by
  intro fuel
  induction fuel with
  | zero =>
    intro sch s e h
    simp [parseFilterF] at h
  | succ n ih =>
    intro sch s e h
    unfold parseFilterF at h
    dsimp only at h
    split_ifs at h with ht
    · simp only [Except.ok.injEq] at h
      subst h
      rfl
    · exact @parseOrG_wf (fun inner => parseFilterF n sch inner) sch
        (fun s' e' h' => ih sch s' e' h') (trimSpaceStr s) e h

/-- C5: `a=1 or b=2 and c=3` parses with AND binding tighter than OR —
the tree is Or of `a=1` and And of `b=2`, `c=3` (leaf values are the
verbatim value strings) — and, in general, every `Or`/`And` node in any
successful parse has at least two children: single operands degenerate to
the next precedence level without a wrapper node. -/
theorem c5_precedence_and_arity :
    ParseFilter "a=1 or b=2 and c=3" =
      .ok (.Or [.Eq "a" (.VStr "1"), .And [.Eq "b" (.VStr "2"), .Eq "c" (.VStr "3")]]) ∧
    (∀ (fuel : Nat) (sch : Option Schema) (s : String) (e : Expr),
      parseFilterF fuel sch s = .ok e → noUnaryBoolOps e = true) :=
  ⟨rfl, parseFilterF_wf⟩

/-- Witness for C5's arity property at the concrete precedence example. -/
theorem c5_precedence_and_arity_witness :
    noUnaryBoolOps
      (.Or [.Eq "a" (.VStr "1"), .And [.Eq "b" (.VStr "2"), .Eq "c" (.VStr "3")]]) = true :=
  c5_precedence_and_arity.2 19 none "a=1 or b=2 and c=3" _ rfl

end QB
